import Mathlib

/-!
Verification of the HVSC base library (`src/vice/src/hvsc/base.c`).

Shallow embedding conventions:

* A C string is modelled as the `List Char` of its bytes before the NUL
  terminator; `strlen` is therefore `List.length` and `memcmp` over a prefix is
  `List.take`.  A `NULL` pointer argument of `char *` type is modelled as
  `Option (List Char)` where that matters (the global `hvsc_root_path`).
* The C `long` values accumulated by the timestamp parser are modelled as
  unbounded naturals; signed overflow of `long` is undefined behaviour in the C
  source, so there is no defined wrap-around behaviour to mirror.
* `hvsc_errno` assignments are modelled by an `Option Nat` result component:
  `none` means the global was left untouched by the call, `some c` means it was
  assigned the code `c`.  The codes follow the order of `hvsc_err_messages`.
* Files are modelled as the list of their bytes; `fgetc`/`fread` consume from
  that list and end-of-list is a clean `feof` end of stream.  For
  `hvsc_read_file` an extra boolean models a stream whose end is an I/O error
  (`ferror`) instead of EOF.
* Heap buffers are modelled as lists whose length is the allocation size;
  `realloc` to size `n` yields a list of length exactly `n`, and memory that the
  C program leaves uninitialized is modelled as NUL bytes (no verified property
  depends on those bytes).  A freed / `NULL` buffer is modelled as `[]`.
-/

/-- NUL byte, the C string terminator. -/
def nulChar : Char := Char.ofNat 0

/-- Value of a C string stored in a buffer: the bytes before the first NUL. -/
def cstr (buf : List Char) : List Char := buf.takeWhile (fun c => c ≠ nulChar)

/-- C `isdigit` in the "C" locale: ASCII `'0'`..`'9'`. -/
def isdigitB (c : Char) : Bool := decide (48 ≤ c.toNat ∧ c.toNat ≤ 57)

/-- Decimal accumulation `a = a * 10 + (*t - '0')` folded over a digit run,
exactly as the loops of `hvsc_parse_simple_timestamp` compute it. -/
def accD (a : Nat) (ds : List Char) : Nat :=
  ds.foldl (fun a c => a * 10 + (c.toNat - 48)) a

/-- Error code `HVSC_ERR_TIMESTAMP` ("malformed timestamp"), index 4 of
`hvsc_err_messages` in `base.c`. -/
def hvscErrTimestamp : Nat := 4

/-- Error code `HVSC_ERR_IO` ("I/O error"), index 1 of `hvsc_err_messages`. -/
def hvscErrIoCode : Nat := 1

/-- Result of `hvsc_parse_simple_timestamp`: the returned `long`, the value
stored through `endptr` (`none` when the call returned without writing it), and
the `hvsc_errno` assignment performed by the call. -/
structure TSResult where
  value : Int
  endp : Option (List Char)
  err : Option Nat
deriving DecidableEq, Repr

/-- Minutes loop of `hvsc_parse_simple_timestamp`:
`while (isdigit(*t)) { m = m * 10 + *t - '0'; t++; }`. -/
def minutesLoop : List Char → Nat → Nat × List Char
  | [], m => (m, [])
  | c :: t, m =>
    if isdigitB c then minutesLoop t (m * 10 + (c.toNat - 48)) else (m, c :: t)

/-- Seconds loop of `hvsc_parse_simple_timestamp`: accumulates digits, failing
(`none`, the `return -1` path) as soon as the accumulated value exceeds 59. -/
def secondsLoop : List Char → Nat → Option (Nat × List Char)
  | [], s => some (s, [])
  | c :: t, s =>
    if isdigitB c then
      let s' := s * 10 + (c.toNat - 48)
      if s' > 59 then none else secondsLoop t s'
    else some (s, c :: t)

/-- Fraction loop of `hvsc_parse_simple_timestamp`:
`while (isdigit(*t) && fd < 3) { fd++; f = f * 10 + *t - '0'; t++; }`. -/
def fracLoop : List Char → Nat → Nat → Nat × Nat × List Char
  | [], f, fd => (f, fd, [])
  | c :: t, f, fd =>
    if isdigitB c ∧ fd < 3 then fracLoop t (f * 10 + (c.toNat - 48)) (fd + 1)
    else (f, fd, c :: t)

/-- Iterated `f *= 10`, `k` times. -/
def padTimes : Nat → Nat → Nat
  | 0, f => f
  | k + 1, f => padTimes k (f * 10)

/-- Zero-padding loop of `hvsc_parse_simple_timestamp`:
`while (fd++ < 3) { f *= 10; }`, which multiplies `f` by ten once for each of
`fd, fd+1, .., 2`, i.e. `3 - fd` times. -/
def padLoop (f fd : Nat) : Nat := padTimes (3 - fd) f

/-- Model of `hvsc_parse_simple_timestamp` (`base.c:692-751`).  The input is
the C string `t`; the result records the returned value, the `endptr` write
(the suffix of `t` it points into) and the `hvsc_errno` assignment. -/
def hvsc_parse_simple_timestamp (t : List Char) : TSResult :=
  let mt := minutesLoop t 0
  -- the dereference `*t` reads the NUL terminator at the end of the string
  if mt.2.headD nulChar = ':' then
    match secondsLoop mt.2.tail 0 with
    | none =>
      -- s > 59: sets errno and returns -1 WITHOUT writing endptr
      { value := -1, endp := none, err := some hvscErrTimestamp }
    | some (s, t3) =>
      if t3.headD nulChar = '.' then
        let ffd := fracLoop t3.tail 0 0
        if ffd.2.1 = 0 then
          -- dangling dot: sets errno and returns -1 WITHOUT writing endptr
          { value := -1, endp := none, err := some hvscErrTimestamp }
        else
          { value := ((mt.1 * 60 + s) * 1000 + padLoop ffd.1 ffd.2.1 : Nat),
            endp := some ffd.2.2, err := none }
      else
        { value := ((mt.1 * 60 + s) * 1000 + 0 : Nat),
          endp := some t3, err := none }
  else
    -- missing ':': writes endptr (pointing at the offending char), sets errno
    { value := -1, endp := some mt.2, err := some hvscErrTimestamp }

/-- Holds when a C string does not start with a decimal digit (also at its
end, where `*t` is the NUL terminator). -/
def startsNoDigit : List Char → Prop
  | [] => True
  | c :: _ => isdigitB c = false

/-- Holds when a C string does not start with `':'`. -/
def startsNoColon : List Char → Prop
  | [] => True
  | c :: _ => c ≠ ':'

instance : ∀ l, Decidable (startsNoDigit l)
  | [] => inferInstanceAs (Decidable True)
  | _ :: _ => inferInstanceAs (Decidable (_ = false))

instance : ∀ l, Decidable (startsNoColon l)
  | [] => inferInstanceAs (Decidable True)
  | _ :: _ => inferInstanceAs (Decidable (_ ≠ _))

/-- Path separator used by `hvsc_paths_join` on non-Windows builds. -/
def pathSep : Char := '/'

/-- Model of `hvsc_paths_join` (`base.c:495-521`, standalone branch): joins the
two paths with a single separator byte.  The `NULL`-argument guard is omitted
because both arguments are modelled as present strings. -/
def hvsc_paths_join (p1 p2 : List Char) : List Char := p1 ++ pathSep :: p2

/-- Model of `hvsc_path_strip_root` (`base.c:579-597`).  The global
`hvsc_root_path` is passed explicitly; `none` models a `NULL` root. -/
def hvsc_path_strip_root (root : Option (List Char)) (path : List Char) :
    List Char :=
  match root with
  | none => path
  | some r =>
    if r.length = 0 then path
    else if path.length ≤ r.length then path
    else if path.take r.length = r then path.drop r.length
    else path

/-- Model of `hvsc_path_is_hvsc` (`base.c:606-623`).  The global
`hvsc_root_path` is passed explicitly; `none` models a `NULL` root. -/
def hvsc_path_is_hvsc (root : Option (List Char)) (path : List Char) : Bool :=
  match root with
  | none => false
  | some r =>
    if r.length ≥ path.length then false
    else decide (path.take r.length = r)

/-- The `field_identifiers` table of `base.c:74-82` (without the final `NULL`
sentinel, which the list structure supplies). -/
def field_identifiers : List (List Char) :=
  [" ARTIST:".toList, " AUTHOR:".toList, "    BUG:".toList,
   "COMMENT:".toList, "   NAME:".toList, "  TITLE:".toList]

/-- The `HVSC_FIELD_INVALID` sentinel. -/
def HVSC_FIELD_INVALID : Int := -1

/-- Model of C `strncmp`: compares at most `n` bytes, stopping at the first
difference or at a NUL terminator; bytes past the end of a list are the NUL
terminator. -/
def strncmp : List Char → List Char → Nat → Int
  | _, _, 0 => 0
  | s1, s2, n + 1 =>
    let c1 := s1.headD nulChar
    let c2 := s2.headD nulChar
    if c1 ≠ c2 then (c1.toNat : Int) - (c2.toNat : Int)
    else if c1 = nulChar then 0
    else strncmp s1.tail s2.tail n

/-- Search loop of `hvsc_get_field_type`: walks the identifier table with a
running index, returning the first index whose identifier matches the first 8
bytes of `s`. -/
def fieldTypeLoop (s : List Char) : List (List Char) → Nat → Int
  | [], _ => HVSC_FIELD_INVALID
  | id :: rest, i =>
    if strncmp s id 8 = 0 then (i : Int) else fieldTypeLoop s rest (i + 1)

/-- Model of `hvsc_get_field_type` (`base.c:766-778`). -/
def hvsc_get_field_type (s : List Char) : Int :=
  fieldTypeLoop s field_identifiers 0

/-- The `READFILE_LINE_SIZE` constant (`base.c:54`). -/
def READFILE_LINE_SIZE : Nat := 1024

/-- The `READFILE_BLOCK_SIZE` constant (`base.c:49`). -/
def READFILE_BLOCK_SIZE : Nat := 65536

/-- Memory returned by the allocator that the C program does not initialize;
modelled as NUL bytes (no verified property inspects these bytes). -/
def uninitChars (n : Nat) : List Char := List.replicate n nulChar

/-- Model of `realloc` on a buffer of `α` cells: the allocation is resized to
exactly `n` cells, keeping the old content and leaving grown cells
uninitialized (modelled by `junk`). -/
def reallocBuf {α : Type} (junk : α) (l : List α) (n : Nat) : List α :=
  l.take n ++ List.replicate (n - l.length) junk

/-- Model of `hvsc_text_file_t` (fields of the handle used by `base.c`).  The
open `FILE *` and its read position are modelled by `stream`, the unread
remainder of the file's bytes; `none`/`[]` model `NULL` pointers. -/
structure hvsc_text_file_t where
  stream : List Char
  path : Option (List Char)
  lineno : Nat
  linelen : Nat
  buffer : List Char
  prevbuf : List Char
  buflen : Nat
deriving DecidableEq, Repr

/-- Model of `hvsc_text_file_init_handle` (`base.c:234-243`): the initial
null/empty handle state. -/
def hvsc_text_file_init_handle : hvsc_text_file_t :=
  { stream := [], path := none, lineno := 0, linelen := 0,
    buffer := [], prevbuf := [], buflen := 0 }

/-- Model of `hvsc_text_file_open` (`base.c:253-271`) on a file that opens
successfully and contains `contents`.  Both line buffers are allocated at
`READFILE_LINE_SIZE`; the C code's `memset(.., 0, sizeof *buffer)` zeroes only
the first byte of each. -/
def hvsc_text_file_open (path contents : List Char) : hvsc_text_file_t :=
  { stream := contents, path := some path, lineno := 0, linelen := 0,
    buffer := (uninitChars READFILE_LINE_SIZE).set 0 nulChar,
    prevbuf := (uninitChars READFILE_LINE_SIZE).set 0 nulChar,
    buflen := READFILE_LINE_SIZE }

/-- Model of `hvsc_text_file_close` (`base.c:280-298`): frees the path and both
buffers and closes the stream, resetting those fields to their null state. -/
def hvsc_text_file_close (h : hvsc_text_file_t) : hvsc_text_file_t :=
  { h with path := none, buffer := [], prevbuf := [], stream := [] }

/-- Outcome of one `hvsc_text_file_read` call: the returned line pointer
(`none` models `NULL`), the updated handle, and the `hvsc_errno` assignment
(`none` when the global was left untouched). -/
structure TextReadResult where
  line : Option (List Char)
  handle : hvsc_text_file_t
  err : Option Nat
deriving DecidableEq, Repr

/-- Intermediate state threaded through the character loop of
`hvsc_text_file_read`. -/
structure TextLoopOut where
  line : Option (List Char)
  stream : List Char
  buffer : List Char
  prevbuf : List Char
  buflen : Nat
  lineno : Nat
  linelen : Nat
  err : Option Nat
deriving DecidableEq, Repr

/-- The `while (true)` character loop of `hvsc_text_file_read`
(`base.c:314-358`).  Each iteration first doubles both buffers when the write
index reaches `buflen - 1`, then consumes one byte: end of stream is a clean
`feof` EOF in this model; `'\n'` terminates the line, stripping a preceding
`'\r'`. -/
def textReadLoop : List Char → List Char → List Char → Nat → Nat → Nat →
    Nat → TextLoopOut
  | [], buffer, prevbuf, buflen, i, lineno, linelen =>
    match (if i = buflen - 1 then
            (reallocBuf nulChar buffer (buflen * 2),
             reallocBuf nulChar prevbuf (buflen * 2), buflen * 2)
           else (buffer, prevbuf, buflen)) with
    | (buf0, prev0, len0) =>
      let buf := buf0.set i nulChar
      { line := if i = 0 then none else some buf,
        stream := [], buffer := buf, prevbuf := prev0,
        buflen := len0, lineno := lineno, linelen := linelen,
        err := none }
  | ch :: rest, buffer, prevbuf, buflen, i, lineno, linelen =>
    match (if i = buflen - 1 then
            (reallocBuf nulChar buffer (buflen * 2),
             reallocBuf nulChar prevbuf (buflen * 2), buflen * 2)
           else (buffer, prevbuf, buflen)) with
    | (buf0, prev0, len0) =>
      if ch = '\n' then
        let buf := buf0.set i nulChar
        match (if 0 < i ∧ buf.getD (i - 1) nulChar = '\r'
               then (buf.set (i - 1) nulChar, i - 1)
               else (buf, i)) with
        | (buf2, i2) =>
          { line := some buf2, stream := rest, buffer := buf2,
            prevbuf := prev0, buflen := len0,
            lineno := lineno + 1, linelen := i2, err := none }
      else
        textReadLoop rest (buf0.set i ch) prev0 len0 (i + 1) lineno linelen

/-- Model of `hvsc_text_file_read` (`base.c:307-360`): copies the whole current
buffer (`buflen` bytes) into the previous-line buffer, then runs the character
loop. -/
def hvsc_text_file_read (h : hvsc_text_file_t) : TextReadResult :=
  match textReadLoop h.stream h.buffer
      (h.buffer.take h.buflen ++ h.prevbuf.drop h.buflen) h.buflen 0
      h.lineno h.linelen with
  | ⟨line, stream, buffer, prevbuf, buflen, lineno, linelen, err⟩ =>
    { line := line,
      handle := { h with
                  stream := stream, buffer := buffer,
                  prevbuf := prevbuf, buflen := buflen,
                  lineno := lineno, linelen := linelen },
      err := err }

/-- Uninitialized byte memory for the bulk loader, modelled as zero bytes. -/
def uninitBytes (n : Nat) : List Nat := List.replicate n 0

/-- Writes `chunk` into `data` starting at `offset` (the
`fread(data + offset, 1, ..)` of `hvsc_read_file`). -/
def writeAt (data : List Nat) (offset : Nat) (chunk : List Nat) : List Nat :=
  data.take offset ++ chunk ++ data.drop (offset + chunk.length)

/-- Outcome of `hvsc_read_file`: the buffer stored through `dest` (`none`
models the freed/`NULL` buffer of the failure path), the returned `long`, and
the `hvsc_errno` assignment. -/
structure ReadFileOut where
  dest : Option (List Nat)
  ret : Int
  err : Option Nat
deriving DecidableEq, Repr

/-- The chunk loop of `hvsc_read_file` (`base.c:412-436`).  `bytes` is the
unread remainder of the stream and `ioerr` tells whether the end of that
remainder is a real I/O error (then `ferror` holds at the short read) or a
clean EOF (`feof`).  A short `fread` with `feof` returns the byte count; with
`ferror` it frees the buffer, sets `HVSC_ERR_IO` and returns -1. -/
def readLoop (bytes : List Nat) (ioerr : Bool) (data : List Nat)
    (offset size : Nat) : ReadFileOut :=
  let resized :=
    if offset = size then (reallocBuf 0 data (size * 2), size * 2)
    else (data, size)
  let chunk := bytes.take READFILE_BLOCK_SIZE
  let written := writeAt resized.1 offset chunk
  if _h : chunk.length < READFILE_BLOCK_SIZE then
    if ioerr then { dest := none, ret := -1, err := some hvscErrIoCode }
    else { dest := some written, ret := (offset + chunk.length : Nat),
           err := none }
  else
    readLoop (bytes.drop READFILE_BLOCK_SIZE) ioerr written
      (offset + READFILE_BLOCK_SIZE) resized.2
termination_by bytes.length
decreasing_by
  unfold chunk at _h
  simp only [List.length_take, List.length_drop, not_lt,
    READFILE_BLOCK_SIZE] at *
  omega

/-- Model of `hvsc_read_file` (`base.c:395-438`) on a file that opens
successfully, yields `bytes` and then ends with a clean EOF (`ioerr = false`)
or an I/O error (`ioerr = true`). -/
def hvsc_read_file (bytes : List Nat) (ioerr : Bool) : ReadFileOut :=
  readLoop bytes ioerr (uninitBytes READFILE_BLOCK_SIZE) 0 READFILE_BLOCK_SIZE

/-! Helper lemmas about the digit-accumulation loops. -/

theorem accD_nil (a : Nat) : accD a [] = a := rfl

theorem accD_cons (a : Nat) (c : Char) (t : List Char) :
    accD a (c :: t) = accD (a * 10 + (c.toNat - 48)) t := rfl

/-- Accumulating more digits never decreases the accumulated value, hence a
digit-run whose total value is at most 59 stays at most 59 at every
intermediate boundary. -/
theorem le_accD (l : List Char) (a : Nat) : a ≤ accD a l := by
  induction l generalizing a with
  | nil => simp [accD_nil]
  | cons c t ih =>
    rw [accD_cons]
    exact le_trans (by omega) (ih (a * 10 + (c.toNat - 48)))

theorem startsNoDigit_nil : startsNoDigit [] := trivial

theorem startsNoDigit_cons (c : Char) (l : List Char)
    (h : isdigitB c = false) : startsNoDigit (c :: l) := h

/-- The minutes loop consumes exactly a digit run and accumulates its decimal
value. -/
theorem minutesLoop_digits (md r : List Char) (m : Nat)
    (hmd : ∀ c ∈ md, isdigitB c = true) (hr : startsNoDigit r) :
    minutesLoop (md ++ r) m = (accD m md, r) := by
  induction md generalizing m with
  | nil =>
    cases r with
    | nil => simp [minutesLoop, accD_nil]
    | cons c t =>
      have : isdigitB c = false := hr
      simp [minutesLoop, this, accD_nil]
  | cons d ds ih =>
    have hd : isdigitB d = true := hmd d (by simp)
    simp only [List.cons_append, minutesLoop, hd, if_true, List.append_eq]
    rw [ih _ (fun c hc => hmd c (by simp [hc])), accD_cons]

/-- The seconds loop succeeds on a digit run whose value stays within 59,
returning the accumulated value and the rest of the input. -/
theorem secondsLoop_ok (sd r : List Char) (s : Nat)
    (hsd : ∀ c ∈ sd, isdigitB c = true) (hr : startsNoDigit r)
    (h59 : accD s sd ≤ 59) :
    secondsLoop (sd ++ r) s = some (accD s sd, r) := by
  induction sd generalizing s with
  | nil =>
    cases r with
    | nil => simp [secondsLoop, accD_nil]
    | cons c t =>
      have : isdigitB c = false := hr
      simp [secondsLoop, this, accD_nil]
  | cons d ds ih =>
    have hd : isdigitB d = true := hsd d (by simp)
    have hacc : accD (s * 10 + (d.toNat - 48)) ds ≤ 59 := by
      rw [← accD_cons]; exact h59
    have hle : s * 10 + (d.toNat - 48) ≤ 59 :=
      le_trans (le_accD ds _) hacc
    simp only [List.cons_append, secondsLoop, hd, if_true, List.append_eq]
    rw [if_neg (by omega)]
    rw [ih _ (fun c hc => hsd c (by simp [hc])) hacc, accD_cons]

/-- The seconds loop fails as soon as the accumulated value exceeds 59 at some
digit boundary of the run. -/
theorem secondsLoop_overflow (sd r : List Char) (s : Nat)
    (hsd : ∀ c ∈ sd, isdigitB c = true) (h60 : 60 ≤ accD s sd)
    (hs : s ≤ 59) :
    secondsLoop (sd ++ r) s = none := by
  induction sd generalizing s with
  | nil => rw [accD_nil] at h60; omega
  | cons d ds ih =>
    have hd : isdigitB d = true := hsd d (by simp)
    simp only [List.cons_append, secondsLoop, hd, if_true, List.append_eq]
    by_cases hgt : s * 10 + (d.toNat - 48) > 59
    · rw [if_pos hgt]
    · rw [if_neg hgt]
      exact ih _ (fun c hc => hsd c (by simp [hc]))
        (by rw [← accD_cons]; exact h60) (by omega)

/-- The fraction loop consumes a digit run of at most `3 - fd` digits and
accumulates its value. -/
theorem fracLoop_ok (l r : List Char) (f fd : Nat)
    (hl : ∀ c ∈ l, isdigitB c = true) (hr : startsNoDigit r)
    (hlen : fd + l.length ≤ 3) :
    fracLoop (l ++ r) f fd = (accD f l, fd + l.length, r) := by
  induction l generalizing f fd with
  | nil =>
    cases r with
    | nil => simp [fracLoop, accD_nil]
    | cons c t =>
      have : isdigitB c = false := hr
      simp [fracLoop, this, accD_nil]
  | cons d ds ih =>
    have hd : isdigitB d = true := hl d (by simp)
    have hfd : fd < 3 := by simp [List.length_cons] at hlen; omega
    simp only [List.cons_append, fracLoop, hd, hfd, true_and, and_self,
      if_pos, List.append_eq]
    rw [ih (f * 10 + (d.toNat - 48)) (fd + 1) (fun c hc => hl c (by simp [hc]))
      (by simp only [List.length_cons] at hlen; omega)]
    rw [accD_cons]
    simp only [Prod.mk.injEq, List.length_cons, true_and, and_true]
    omega

/-- The padding loop multiplies by the corresponding power of ten. -/
theorem padTimes_eq (k f : Nat) : padTimes k f = f * 10 ^ k := by
  induction k generalizing f with
  | zero => simp [padTimes]
  | succ k ih => rw [padTimes, ih]; ring

theorem padLoop_pow (f fd : Nat) : padLoop f fd = f * 10 ^ (3 - fd) := by
  rw [padLoop, padTimes_eq]

/-- C6: for every input whose seconds digit run reaches an accumulated value of
60 or more at some digit boundary, `hvsc_parse_simple_timestamp` returns the
negative sentinel -1 and sets `hvsc_errno` to the malformed-timestamp code.
Here `sd` is the portion of the seconds digit run up to the offending boundary
and `r` is the arbitrary remainder of the input. -/
theorem timestamp_seconds_overflow (md sd r : List Char)
    (hmd : ∀ c ∈ md, isdigitB c = true)
    (hsd : ∀ c ∈ sd, isdigitB c = true)
    (h60 : 60 ≤ accD 0 sd) :
    hvsc_parse_simple_timestamp (md ++ ':' :: (sd ++ r))
      = { value := -1, endp := none, err := some hvscErrTimestamp } := by
  unfold hvsc_parse_simple_timestamp
  rw [minutesLoop_digits md (':' :: (sd ++ r)) 0 hmd
    (startsNoDigit_cons _ _ (by decide))]
  simp only [List.headD_cons, List.tail_cons, if_pos]
  rw [secondsLoop_overflow sd r 0 hsd h60 (by omega)]

/-- Witness for C6's theorem at the concrete input `"1:60"`. -/
theorem timestamp_seconds_overflow_witness :
    hvsc_parse_simple_timestamp "1:60".toList
      = { value := -1, endp := none, err := some hvscErrTimestamp } := by
  have h := timestamp_seconds_overflow ['1'] ['6', '0'] []
    (by decide) (by decide) (by decide)
  simpa using h

/-- C1: for every well-formed timestamp `M:SS` or `M:SS.fff` — `md` and `sd`
nonempty digit runs with the accumulated seconds value never exceeding 59
(equivalently, by `le_accD`, total value at most 59), and an optional fraction
of 1 to 3 digits — `hvsc_parse_simple_timestamp` returns
`(M*60+SS)*1000 + f_ms` where a short fraction is right-padded with zeros to 3
digits, consuming the whole string and leaving `hvsc_errno` untouched. -/
theorem timestamp_valid_parse (md sd : List Char) (fr : Option (List Char))
    (hmd : ∀ c ∈ md, isdigitB c = true) (_hmdne : md ≠ [])
    (hsd : ∀ c ∈ sd, isdigitB c = true) (_hsdne : sd ≠ [])
    (h59 : accD 0 sd ≤ 59)
    (hfr : ∀ l, fr = some l →
      (∀ c ∈ l, isdigitB c = true) ∧ 1 ≤ l.length ∧ l.length ≤ 3) :
    hvsc_parse_simple_timestamp
        (md ++ ':' :: (sd ++ fr.elim [] (fun l => '.' :: l)))
      = { value := ((accD 0 md * 60 + accD 0 sd) * 1000
                      + fr.elim 0 (fun l => accD 0 l * 10 ^ (3 - l.length))
                    : Nat),
          endp := some [], err := none } := by
  cases fr with
  | none =>
    simp only [Option.elim_none, List.append_nil]
    unfold hvsc_parse_simple_timestamp
    rw [minutesLoop_digits md (':' :: sd) 0 hmd
      (startsNoDigit_cons _ _ (by decide))]
    simp only [List.headD_cons, List.tail_cons, if_pos]
    have hs := secondsLoop_ok sd [] 0 hsd startsNoDigit_nil h59
    rw [List.append_nil] at hs
    rw [hs]
    simp [nulChar]
  | some l =>
    obtain ⟨hld, hl1, hl3⟩ := hfr l rfl
    simp only [Option.elim_some]
    unfold hvsc_parse_simple_timestamp
    rw [minutesLoop_digits md (':' :: (sd ++ '.' :: l)) 0 hmd
      (startsNoDigit_cons _ _ (by decide))]
    simp only [List.headD_cons, List.tail_cons, if_pos]
    rw [secondsLoop_ok sd ('.' :: l) 0 hsd
      (startsNoDigit_cons _ _ (by decide)) h59]
    simp only [List.headD_cons, List.tail_cons, if_pos]
    have hf := fracLoop_ok l [] 0 0 hld startsNoDigit_nil (by omega)
    rw [List.append_nil] at hf
    rw [hf]
    simp only [Prod.snd, Prod.fst, Nat.zero_add]
    rw [if_neg (by omega)]
    simp [padLoop_pow]

/-- Witness for C1's theorem at the concrete inputs `"1:02.5"` and `"7:43"`. -/
theorem timestamp_valid_parse_witness :
    hvsc_parse_simple_timestamp "1:02.5".toList
      = { value := 62500, endp := some [], err := none } ∧
    hvsc_parse_simple_timestamp "7:43".toList
      = { value := 463000, endp := some [], err := none } := by
  constructor
  · have h := timestamp_valid_parse ['1'] ['0', '2'] (some ['5'])
      (by decide) (by decide) (by decide) (by decide) (by decide)
      (by intro l hl; cases hl; exact ⟨by decide, by decide, by decide⟩)
    simpa using h
  · have h := timestamp_valid_parse ['7'] ['4', '3'] none
      (by decide) (by decide) (by decide) (by decide) (by decide)
      (by intro l hl; cases hl)
    simpa using h

/-- C10: `hvsc_parse_simple_timestamp` accepts empty digit runs on either side
of the colon: `":30"` parses to 30000 ms and `"5:"` parses to 300000 ms, in
both cases successfully (no error), with the stored scan position at the end
of the input (for `"5:"`, the character right after the colon). -/
theorem timestamp_empty_runs :
    hvsc_parse_simple_timestamp ":30".toList
      = { value := 30000, endp := some [], err := none } ∧
    hvsc_parse_simple_timestamp "5:".toList
      = { value := 300000, endp := some [], err := none } := by
  decide

/-- C3 counterexample: at the failing input `"1:99"` (seconds run exceeding
59) the parser does return -1 and set the malformed-timestamp error code, but
it returns WITHOUT storing anything into the caller's `endptr` (`endp = none`),
contradicting the claim that every parse failure stores an advanced pointer
into `endptr`. -/
theorem timestamp_failure_endptr_cex :
    hvsc_parse_simple_timestamp "1:99".toList
      = { value := -1, endp := none, err := some hvscErrTimestamp } := by
  decide

/-- C3 amended: on every parse failure the function returns -1 and sets the
error state to the malformed-timestamp code, but `endptr` is written only by
the missing-`':'` failure (where it points at the offending character); the
seconds-over-59 and dangling-dot failures return without writing `endptr`.
The three conjuncts cover the three failure families: digit run followed by a
non-digit that is not `':'`; seconds run reaching 60 at some boundary; and a
`'.'` followed by no digit. -/
theorem timestamp_failure_amended :
    (∀ md r, (∀ c ∈ md, isdigitB c = true) → startsNoDigit r →
      startsNoColon r →
      hvsc_parse_simple_timestamp (md ++ r)
        = { value := -1, endp := some r, err := some hvscErrTimestamp }) ∧
    (∀ md sd r, (∀ c ∈ md, isdigitB c = true) →
      (∀ c ∈ sd, isdigitB c = true) → 60 ≤ accD 0 sd →
      hvsc_parse_simple_timestamp (md ++ ':' :: (sd ++ r))
        = { value := -1, endp := none, err := some hvscErrTimestamp }) ∧
    (∀ md sd r, (∀ c ∈ md, isdigitB c = true) →
      (∀ c ∈ sd, isdigitB c = true) → accD 0 sd ≤ 59 → startsNoDigit r →
      hvsc_parse_simple_timestamp (md ++ ':' :: (sd ++ '.' :: r))
        = { value := -1, endp := none, err := some hvscErrTimestamp }) := by
  refine ⟨?_, ?_, ?_⟩
  · intro md r hmd hrd hrc
    unfold hvsc_parse_simple_timestamp
    rw [minutesLoop_digits md r 0 hmd hrd]
    have hcond : (accD 0 md, r).2.headD nulChar ≠ ':' := by
      cases r with
      | nil => exact (by decide : ([] : List Char).headD nulChar ≠ ':')
      | cons c t =>
        have hc : c ≠ ':' := hrc
        simpa using hc
    rw [if_neg hcond]
  · intro md sd r hmd hsd h60
    unfold hvsc_parse_simple_timestamp
    rw [minutesLoop_digits md (':' :: (sd ++ r)) 0 hmd
      (startsNoDigit_cons _ _ (by decide))]
    simp only [List.headD_cons, List.tail_cons, if_pos]
    rw [secondsLoop_overflow sd r 0 hsd h60 (by omega)]
  · intro md sd r hmd hsd h59 hrd
    unfold hvsc_parse_simple_timestamp
    rw [minutesLoop_digits md (':' :: (sd ++ '.' :: r)) 0 hmd
      (startsNoDigit_cons _ _ (by decide))]
    simp only [List.headD_cons, List.tail_cons, if_pos]
    rw [secondsLoop_ok sd ('.' :: r) 0 hsd
      (startsNoDigit_cons _ _ (by decide)) h59]
    simp only [List.headD_cons, List.tail_cons, if_pos]
    have hf := fracLoop_ok [] r 0 0 (by simp) hrd (by simp)
    rw [List.nil_append] at hf
    rw [hf]
    rw [if_pos (show (accD 0 [], 0 + [].length, r).2.1 = 0 from rfl)]

/-- Witness for C3's amended theorem at the concrete failing inputs `"5x"`,
`"1:60"` and `"1:2."`. -/
theorem timestamp_failure_amended_witness :
    hvsc_parse_simple_timestamp "5x".toList
      = { value := -1, endp := some ['x'], err := some hvscErrTimestamp } ∧
    hvsc_parse_simple_timestamp "1:60".toList
      = { value := -1, endp := none, err := some hvscErrTimestamp } ∧
    hvsc_parse_simple_timestamp "1:2.".toList
      = { value := -1, endp := none, err := some hvscErrTimestamp } := by
  refine ⟨?_, ?_, ?_⟩
  · have h := timestamp_failure_amended.1 ['5'] ['x']
      (by decide) (by decide) (by decide)
    simpa using h
  · have h := timestamp_failure_amended.2.1 ['1'] ['6', '0'] []
      (by decide) (by decide) (by decide)
    simpa using h
  · have h := timestamp_failure_amended.2.2 ['1'] ['2'] []
      (by decide) (by decide) (by decide) (by decide)
    simpa using h

/-! Helper lemmas about `strncmp` and the field-identifier search. -/

/-- A `strncmp` over `n` bytes depends only on the first `n` bytes of its
first argument. -/
theorem strncmp_take_congr (n : Nat) :
    ∀ s t id : List Char, s.take n = t.take n →
      strncmp s id n = strncmp t id n := by
  induction n with
  | zero => intro s t id _; rfl
  | succ n ih =>
    intro s t id h
    cases s with
    | nil =>
      cases t with
      | nil => rfl
      | cons b t' => simp [List.take_succ_cons] at h
    | cons a s' =>
      cases t with
      | nil => simp [List.take_succ_cons] at h
      | cons b t' =>
        simp only [List.take_succ_cons, List.cons.injEq] at h
        obtain ⟨rfl, h2⟩ := h
        simp only [strncmp, List.headD_cons, List.tail_cons]
        by_cases hne : a ≠ id.headD nulChar
        · rw [if_pos hne, if_pos hne]
        · rw [if_neg hne, if_neg hne]
          by_cases hnul : a = nulChar
          · rw [if_pos hnul, if_pos hnul]
          · rw [if_neg hnul, if_neg hnul]
            exact ih s' t' id.tail h2

/-- When no identifier in the remaining table matches, the search loop returns
the invalid sentinel. -/
theorem fieldTypeLoop_nomatch (s : List Char) :
    ∀ ids (i : Nat), (∀ id ∈ ids, strncmp s id 8 ≠ 0) →
      fieldTypeLoop s ids i = HVSC_FIELD_INVALID := by
  intro ids
  induction ids with
  | nil => intro i _; rfl
  | cons id rest ih =>
    intro i h
    simp only [fieldTypeLoop]
    rw [if_neg (h id (by simp))]
    exact ih (i + 1) (fun x hx => h x (by simp [hx]))

/-- The search loop returns the base index plus the position of the first
matching identifier. -/
theorem fieldTypeLoop_first (s : List Char) :
    ∀ ids (i0 i : Nat) (id : List Char), ids.get? i = some id →
      strncmp s id 8 = 0 →
      (∀ j jd, j < i → ids.get? j = some jd → strncmp s jd 8 ≠ 0) →
      fieldTypeLoop s ids i0 = ((i0 + i : Nat) : Int) := by
  intro ids
  induction ids with
  | nil => intro i0 i id h; simp [List.get?] at h
  | cons hd rest ih =>
    intro i0 i id hget hmatch hprev
    cases i with
    | zero =>
      simp only [List.get?, Option.some.injEq] at hget
      subst hget
      simp only [fieldTypeLoop]
      rw [if_pos hmatch]
      simp
    | succ j =>
      have h0 : strncmp s hd 8 ≠ 0 :=
        hprev 0 hd (by omega) (by simp [List.get?])
      simp only [fieldTypeLoop]
      rw [if_neg h0]
      rw [ih (i0 + 1) j id (by simpa [List.get?] using hget) hmatch
        (fun k kd hk hkd => hprev (k + 1) kd (by omega)
          (by simpa [List.get?] using hkd))]
      congr 1
      omega

/-- The search result depends only on the first 8 bytes of the line. -/
theorem fieldTypeLoop_take8 (s t : List Char) (h : s.take 8 = t.take 8) :
    ∀ ids (i : Nat), fieldTypeLoop s ids i = fieldTypeLoop t ids i := by
  intro ids
  induction ids with
  | nil => intro i; rfl
  | cons id rest ih =>
    intro i
    simp only [fieldTypeLoop]
    rw [strncmp_take_congr 8 s t id h]
    by_cases hm : strncmp t id 8 = 0
    · rw [if_pos hm, if_pos hm]
    · rw [if_neg hm, if_neg hm]
      exact ih (i + 1)

/-- C4 counterexample: the line `"   TITLE:Some Song"` (THREE leading spaces)
does not match any 8-byte identifier — in particular not `"  TITLE:"`, whose
8 bytes are two spaces followed by `TITLE:` — so `hvsc_get_field_type`
classifies it as INVALID (-1), not as TITLE (enumeration index 5) as the claim
states. -/
theorem field_type_three_space_cex :
    hvsc_get_field_type "   TITLE:Some Song".toList = HVSC_FIELD_INVALID ∧
    HVSC_FIELD_INVALID ≠ 5 := by
  decide

/-- C4 amended: the two-space line `"  TITLE:Some Song"` classifies as TITLE
(index 5); a line whose first 8 bytes match none of the fixed tag literals
returns INVALID (-1); classification depends on exactly the first 8 bytes of
the line; and the first matching literal of the ordered table wins, yielding
its index. -/
theorem field_type_amended :
    hvsc_get_field_type "  TITLE:Some Song".toList = 5 ∧
    (∀ s, (∀ id ∈ field_identifiers, strncmp s id 8 ≠ 0) →
      hvsc_get_field_type s = HVSC_FIELD_INVALID) ∧
    (∀ s t, s.take 8 = t.take 8 →
      hvsc_get_field_type s = hvsc_get_field_type t) ∧
    (∀ s (i : Nat) (id : List Char), field_identifiers.get? i = some id →
      strncmp s id 8 = 0 →
      (∀ j jd, j < i → field_identifiers.get? j = some jd →
        strncmp s jd 8 ≠ 0) →
      hvsc_get_field_type s = (i : Int)) := by
  refine ⟨by decide, ?_, ?_, ?_⟩
  · intro s h
    exact fieldTypeLoop_nomatch s field_identifiers 0 h
  · intro s t h
    exact fieldTypeLoop_take8 s t h field_identifiers 0
  · intro s i id hget hmatch hprev
    have h := fieldTypeLoop_first s field_identifiers 0 i id hget hmatch hprev
    simpa using h

/-- Witness for C4's amended theorem: a non-matching line classifies INVALID,
and two lines sharing their first 8 bytes classify identically. -/
theorem field_type_amended_witness :
    hvsc_get_field_type "no tag here".toList = HVSC_FIELD_INVALID ∧
    hvsc_get_field_type "COMMENT:aaa".toList
      = hvsc_get_field_type "COMMENT:bbb".toList := by
  constructor
  · exact field_type_amended.2.1 "no tag here".toList (by decide)
  · exact field_type_amended.2.2.1 "COMMENT:aaa".toList "COMMENT:bbb".toList
      (by decide)

/-- C8: `hvsc_path_is_hvsc p` is true iff a root is configured, `p` is
strictly longer than the root, and the first `len(root)` bytes of `p` equal
the root byte-for-byte; in particular a path exactly equal to the root yields
false. -/
theorem path_is_hvsc_spec :
    (∀ (root : Option (List Char)) (path : List Char),
      hvsc_path_is_hvsc root path = true ↔
        ∃ r, root = some r ∧ r.length < path.length ∧
          path.take r.length = r) ∧
    (∀ r : List Char, hvsc_path_is_hvsc (some r) r = false) := by
  constructor
  · intro root path
    cases root with
    | none => simp [hvsc_path_is_hvsc]
    | some r =>
      simp only [hvsc_path_is_hvsc]
      by_cases hlen : r.length ≥ path.length
      · rw [if_pos hlen]
        simp only [Bool.false_eq_true, false_iff]
        rintro ⟨r', hr', hlt, _⟩
        injection hr' with h
        subst h
        omega
      · rw [if_neg hlen]
        simp only [decide_eq_true_eq]
        constructor
        · intro h
          exact ⟨r, rfl, by omega, h⟩
        · rintro ⟨r', hr', _, htake⟩
          injection hr' with h
          subst h
          exact htake
  · intro r
    simp only [hvsc_path_is_hvsc]
    rw [if_pos (le_refl r.length)]

/-- Witness for C8's theorem: root `"h"` under path `"h/a"` is accepted, and
the path equal to the root is rejected. -/
theorem path_is_hvsc_spec_witness :
    hvsc_path_is_hvsc (some "h".toList) "h/a".toList = true ∧
    hvsc_path_is_hvsc (some "h".toList) "h".toList = false := by
  constructor
  · exact (path_is_hvsc_spec.1 (some "h".toList) "h/a".toList).mpr
      ⟨"h".toList, rfl, by decide, by decide⟩
  · exact path_is_hvsc_spec.2 "h".toList

/-- C2 counterexample: with root `"h"` and `x = "a"` (which does not contain
the root as a prefix), joining gives `"h/a"`, stripping the root gives `"/a"`
(the separator is NOT stripped), and re-joining gives `"h//a"`, which differs
from the original joined path `"h/a"` — the round-trip claim fails. -/
theorem paths_roundtrip_cex :
    hvsc_paths_join "h".toList "a".toList = "h/a".toList ∧
    hvsc_path_strip_root (some "h".toList)
        (hvsc_paths_join "h".toList "a".toList) = "/a".toList ∧
    hvsc_paths_join "h".toList
        (hvsc_path_strip_root (some "h".toList)
          (hvsc_paths_join "h".toList "a".toList)) = "h//a".toList ∧
    "h//a".toList ≠ "h/a".toList ∧
    ¬ ("h".toList <+: "a".toList) := by
  decide

/-- C2 amended: for every nonempty root and every `x`,
`stripRoot(joinPaths(root, x))` equals `"/" ++ x` — the root is stripped but
the separator inserted by the join is retained — so re-joining yields
`root ++ "//" ++ x`, which never equals the original `joinPaths(root, x)`
(it is one separator longer). -/
theorem paths_roundtrip_amended (root x : List Char) (h : root ≠ []) :
    hvsc_path_strip_root (some root) (hvsc_paths_join root x)
      = pathSep :: x ∧
    hvsc_paths_join root
        (hvsc_path_strip_root (some root) (hvsc_paths_join root x))
      = root ++ pathSep :: pathSep :: x ∧
    hvsc_paths_join root
        (hvsc_path_strip_root (some root) (hvsc_paths_join root x))
      ≠ hvsc_paths_join root x := by
  have hstrip : hvsc_path_strip_root (some root) (hvsc_paths_join root x)
      = pathSep :: x := by
    simp only [hvsc_path_strip_root, hvsc_paths_join]
    rw [if_neg (fun hh => h (List.length_eq_zero.mp hh))]
    rw [if_neg (by simp only [List.length_append, List.length_cons, not_le]; omega)]
    rw [if_pos (List.take_left root (pathSep :: x))]
    exact List.drop_left root (pathSep :: x)
  refine ⟨hstrip, ?_, ?_⟩
  · rw [hstrip]
    rfl
  · rw [hstrip]
    intro heq
    have hL := congrArg List.length heq
    simp only [hvsc_paths_join, List.length_append, List.length_cons] at hL
    omega

/-- Witness for C2's amended theorem at root `"h"`, `x = "a"`. -/
theorem paths_roundtrip_amended_witness :
    hvsc_path_strip_root (some "h".toList)
        (hvsc_paths_join "h".toList "a".toList) = pathSep :: "a".toList ∧
    hvsc_paths_join "h".toList
        (hvsc_path_strip_root (some "h".toList)
          (hvsc_paths_join "h".toList "a".toList))
      = "h".toList ++ pathSep :: pathSep :: "a".toList ∧
    hvsc_paths_join "h".toList
        (hvsc_path_strip_root (some "h".toList)
          (hvsc_paths_join "h".toList "a".toList))
      ≠ hvsc_paths_join "h".toList "a".toList := by
  exact paths_roundtrip_amended "h".toList "a".toList (by decide)

set_option maxHeartbeats 2000000 in
/-- C5: reading a file containing `"line1\r\nline2\n"` yields `"line1"` (line
number 1), then `"line2"` (line number 2), then NULL with no error; reading a
file containing `"lastline"` (no trailing newline) yields `"lastline"` once
without incrementing the line number, then NULL on the next call with no error
set. -/
theorem text_file_read_lines :
    (let r1 := hvsc_text_file_read
       (hvsc_text_file_open "f".toList "line1\r\nline2\n".toList)
     let r2 := hvsc_text_file_read r1.handle
     let r3 := hvsc_text_file_read r2.handle
     r1.line.map cstr = some "line1".toList ∧ r1.handle.lineno = 1 ∧
     r1.err = none ∧
     r2.line.map cstr = some "line2".toList ∧ r2.handle.lineno = 2 ∧
     r2.err = none ∧
     r3.line = none ∧ r3.err = none) ∧
    (let r1 := hvsc_text_file_read
       (hvsc_text_file_open "g".toList "lastline".toList)
     let r2 := hvsc_text_file_read r1.handle
     r1.line.map cstr = some "lastline".toList ∧ r1.handle.lineno = 0 ∧
     r1.err = none ∧
     r2.line = none ∧ r2.err = none) := by
  decide

/-- Length of a reallocated buffer is exactly the requested size. -/
theorem reallocBuf_length {α : Type} (junk : α) (l : List α) (n : Nat) :
    (reallocBuf junk l n).length = n := by
  simp only [reallocBuf, List.length_append, List.length_take,
    List.length_replicate]
  omega

/-- Capacity facts preserved by the character loop of `hvsc_text_file_read`:
both buffers end with length equal to the final `buflen`, which never
shrinks. -/
def capsOK (buflen0 : Nat) (o : TextLoopOut) : Prop :=
  o.buffer.length = o.buflen ∧ o.prevbuf.length = o.buflen ∧
  buflen0 ≤ o.buflen

theorem textReadLoop_caps (stream : List Char) :
    ∀ (buffer prevbuf : List Char) (buflen i lineno linelen : Nat),
      buffer.length = buflen → prevbuf.length = buflen →
      capsOK buflen (textReadLoop stream buffer prevbuf buflen i lineno
        linelen) := by
  induction stream with
  | nil =>
    intro buffer prevbuf buflen i lineno linelen hb hp
    rw [textReadLoop]
    split
    next buf0 prev0 len0 heq =>
    have hfacts : buf0.length = len0 ∧ prev0.length = len0 ∧
        buflen ≤ len0 := by
      by_cases hi : i = buflen - 1
      · rw [if_pos hi] at heq
        injection heq with h1 h23
        injection h23 with h2 h3
        subst h1; subst h2; subst h3
        exact ⟨reallocBuf_length _ _ _, reallocBuf_length _ _ _, by omega⟩
      · rw [if_neg hi] at heq
        injection heq with h1 h23
        injection h23 with h2 h3
        subst h1; subst h2; subst h3
        exact ⟨hb, hp, le_refl _⟩
    obtain ⟨h1, h2, h3⟩ := hfacts
    simp only [capsOK, List.length_set]
    exact ⟨h1, h2, h3⟩
  | cons ch rest ih =>
    intro buffer prevbuf buflen i lineno linelen hb hp
    rw [textReadLoop]
    split
    next buf0 prev0 len0 heq =>
    have hfacts : buf0.length = len0 ∧ prev0.length = len0 ∧
        buflen ≤ len0 := by
      by_cases hi : i = buflen - 1
      · rw [if_pos hi] at heq
        injection heq with h1 h23
        injection h23 with h2 h3
        subst h1; subst h2; subst h3
        exact ⟨reallocBuf_length _ _ _, reallocBuf_length _ _ _, by omega⟩
      · rw [if_neg hi] at heq
        injection heq with h1 h23
        injection h23 with h2 h3
        subst h1; subst h2; subst h3
        exact ⟨hb, hp, le_refl _⟩
    obtain ⟨h1, h2, h3⟩ := hfacts
    by_cases hch : ch = '\n'
    · rw [if_pos hch]
      dsimp only
      split
      · simp only [capsOK, List.length_set]
        exact ⟨h1, h2, h3⟩
      · simp only [capsOK, List.length_set]
        exact ⟨h1, h2, h3⟩
    · rw [if_neg hch]
      have hrec := ih (buf0.set i ch) prev0 len0 (i + 1) lineno linelen
        (by simp [List.length_set, h1]) h2
      simp only [capsOK] at hrec ⊢
      exact ⟨hrec.1, hrec.2.1, le_trans h3 hrec.2.2⟩

/-- C9: the current-line and previous-line buffers always have equal capacity:
`open` allocates both at `READFILE_LINE_SIZE`; every `read` call preserves the
equal-capacity invariant (every internal doubling reallocates both buffers to
the new shared `buflen`) and the shared capacity never shrinks; `close`
releases both buffers. -/
theorem text_file_buffer_caps :
    (∀ path contents : List Char,
      (hvsc_text_file_open path contents).buffer.length = READFILE_LINE_SIZE ∧
      (hvsc_text_file_open path contents).prevbuf.length
        = READFILE_LINE_SIZE ∧
      (hvsc_text_file_open path contents).buflen = READFILE_LINE_SIZE) ∧
    (∀ h : hvsc_text_file_t, h.buffer.length = h.buflen →
      h.prevbuf.length = h.buflen →
      ((hvsc_text_file_read h).handle.buffer.length
          = (hvsc_text_file_read h).handle.buflen ∧
       (hvsc_text_file_read h).handle.prevbuf.length
          = (hvsc_text_file_read h).handle.buflen ∧
       h.buflen ≤ (hvsc_text_file_read h).handle.buflen)) ∧
    (∀ h : hvsc_text_file_t,
      (hvsc_text_file_close h).buffer = [] ∧
      (hvsc_text_file_close h).prevbuf = []) := by
  refine ⟨?_, ?_, ?_⟩
  · intro path contents
    refine ⟨?_, ?_, rfl⟩ <;>
      simp [hvsc_text_file_open, uninitChars, List.length_set]
  · intro h hb hp
    have hlen : (h.buffer.take h.buflen ++ h.prevbuf.drop h.buflen).length
        = h.buflen := by
      simp only [List.length_append, List.length_take, List.length_drop,
        hb, hp]
      omega
    have hcaps := textReadLoop_caps h.stream h.buffer
      (h.buffer.take h.buflen ++ h.prevbuf.drop h.buflen) h.buflen 0
      h.lineno h.linelen hb hlen
    rcases hE : textReadLoop h.stream h.buffer
      (h.buffer.take h.buflen ++ h.prevbuf.drop h.buflen) h.buflen 0
      h.lineno h.linelen with ⟨l, st, bu, pv, bl, ln, ll, er⟩
    rw [hE] at hcaps
    simp only [capsOK] at hcaps
    simp only [hvsc_text_file_read, hE]
    exact hcaps
  · intro h
    exact ⟨rfl, rfl⟩

set_option maxRecDepth 8192 in
/-- Witness for C9's read-preservation conjunct at a freshly opened handle. -/
theorem text_file_buffer_caps_witness :
    (hvsc_text_file_read (hvsc_text_file_open "p".toList "ab".toList)).handle.buffer.length = (hvsc_text_file_read (hvsc_text_file_open "p".toList "ab".toList)).handle.buflen ∧
    (hvsc_text_file_read (hvsc_text_file_open "p".toList "ab".toList)).handle.prevbuf.length = (hvsc_text_file_read (hvsc_text_file_open "p".toList "ab".toList)).handle.buflen ∧
    (hvsc_text_file_open "p".toList "ab".toList).buflen ≤ (hvsc_text_file_read (hvsc_text_file_open "p".toList "ab".toList)).handle.buflen := by
  exact text_file_buffer_caps.2.1 (hvsc_text_file_open "p".toList "ab".toList)
    (by decide) (by decide)

/-! Helper lemmas for the bulk file loader. -/

theorem writeAt_take (data chunk : List Nat) (offset : Nat)
    (h : offset ≤ data.length) :
    (writeAt data offset chunk).take (offset + chunk.length)
      = data.take offset ++ chunk := by
  simp only [writeAt, List.append_assoc]
  rw [List.take_append_eq_append_take]
  have hlen : (data.take offset).length = offset := by
    simp [List.length_take]; omega
  rw [List.take_take, min_eq_right (by omega), hlen]
  have : offset + chunk.length - offset = chunk.length := by omega
  rw [this]
  rw [List.take_append_eq_append_take]
  simp

theorem writeAt_length (data chunk : List Nat) (offset : Nat)
    (h : offset + chunk.length ≤ data.length) :
    (writeAt data offset chunk).length = data.length := by
  simp only [writeAt, List.length_append, List.length_take,
    List.length_drop]
  omega

theorem reallocBuf_take {α : Type} (junk : α) (l : List α) (n m : Nat)
    (h1 : m ≤ l.length) (h2 : m ≤ n) :
    (reallocBuf junk l n).take m = l.take m := by
  simp only [reallocBuf]
  rw [List.take_append_eq_append_take]
  have hlen : (l.take n).length = min n l.length := by
    simp [List.length_take]
  rw [List.take_take, min_eq_left h2]
  have : m - (l.take n).length = 0 := by
    simp [List.length_take]; omega
  rw [this]
  simp

theorem block_step {o s : Nat} (ho : READFILE_BLOCK_SIZE ∣ o)
    (hs : READFILE_BLOCK_SIZE ∣ s) (h : o < s) :
    o + READFILE_BLOCK_SIZE ≤ s := by
  obtain ⟨a, rfl⟩ := ho
  obtain ⟨b, rfl⟩ := hs
  have hB : 0 < READFILE_BLOCK_SIZE := by norm_num [READFILE_BLOCK_SIZE]
  have hab : a < b := Nat.lt_of_mul_lt_mul_left h
  calc READFILE_BLOCK_SIZE * a + READFILE_BLOCK_SIZE
      = READFILE_BLOCK_SIZE * (a + 1) := by ring
    _ ≤ READFILE_BLOCK_SIZE * b := Nat.mul_le_mul_left _ hab

/-- On a stream whose end is an I/O error, the chunk loop always fails with
`HVSC_ERR_IO`, a -1 return and a freed (`none`) buffer. -/
theorem readLoop_io_error (n : Nat) :
    ∀ (bytes data : List Nat) (offset size : Nat), bytes.length ≤ n →
      readLoop bytes true data offset size
        = { dest := none, ret := -1, err := some hvscErrIoCode } := by
  induction n with
  | zero =>
    intro bytes data offset size hn
    have hb : bytes = [] := List.length_eq_zero.mp (Nat.le_zero.mp hn)
    subst hb
    rw [readLoop]
    rw [dif_pos (by norm_num [READFILE_BLOCK_SIZE])]
    rfl
  | succ n ih =>
    intro bytes data offset size hn
    rw [readLoop]
    by_cases hlt :
        (bytes.take READFILE_BLOCK_SIZE).length < READFILE_BLOCK_SIZE
    · rw [dif_pos hlt]
      rfl
    · rw [dif_neg hlt]
      apply ih
      have hB : 1 ≤ READFILE_BLOCK_SIZE := by norm_num [READFILE_BLOCK_SIZE]
      simp only [List.length_take, not_lt] at hlt
      simp only [List.length_drop]
      omega

/-- On a stream ending in clean EOF the chunk loop succeeds: it returns the
total byte count and a buffer whose first `offset + bytes.length` bytes are
the previously written prefix followed by the stream's bytes.  The hypotheses
are the loop invariants of `hvsc_read_file`: the buffer is allocated at
exactly `size` which is a positive multiple of the chunk size, and `offset`
is a chunk-aligned position within it. -/
theorem readLoop_success :
    ∀ (n : Nat) (bytes data : List Nat) (offset size : Nat),
      bytes.length = n →
      READFILE_BLOCK_SIZE ≤ size → offset ≤ size → data.length = size →
      READFILE_BLOCK_SIZE ∣ offset → READFILE_BLOCK_SIZE ∣ size →
      ∃ d : List Nat,
        readLoop bytes false data offset size
          = { dest := some d, ret := ((offset + bytes.length : Nat) : Int),
              err := none } ∧
        d.take (offset + bytes.length) = data.take offset ++ bytes := by
  intro n
  induction n using Nat.strong_induction_on with
  | _ n ih =>
    intro bytes data offset size hlen hBs hos hdl hdivo hdivs
    have hBpos : 0 < READFILE_BLOCK_SIZE := by norm_num [READFILE_BLOCK_SIZE]
    rw [readLoop]
    obtain ⟨data1, size1, heq1, hd1len, htake1, hlt1, hBs1, hdivs1⟩ :
        ∃ data1 size1,
          (if offset = size then (reallocBuf 0 data (size * 2), size * 2)
           else (data, size)) = (data1, size1) ∧
          data1.length = size1 ∧ data1.take offset = data.take offset ∧
          offset < size1 ∧ READFILE_BLOCK_SIZE ≤ size1 ∧
          READFILE_BLOCK_SIZE ∣ size1 := by
      by_cases hresize : offset = size
      · subst hresize
        rw [if_pos rfl]
        refine ⟨_, _, rfl, reallocBuf_length _ _ _, ?_, ?_, ?_, ?_⟩
        · exact reallocBuf_take 0 data (offset * 2) offset (by omega)
            (by omega)
        · omega
        · omega
        · exact Dvd.dvd.mul_right hdivs 2
      · rw [if_neg hresize]
        exact ⟨data, size, rfl, hdl, rfl, by omega, hBs, hdivs⟩
    rw [heq1]
    simp only [Prod.fst, Prod.snd]
    by_cases hlt :
        (bytes.take READFILE_BLOCK_SIZE).length < READFILE_BLOCK_SIZE
    · rw [dif_pos hlt]
      have hshort : bytes.length < READFILE_BLOCK_SIZE := by
        simp only [List.length_take] at hlt
        omega
      have htakeall : bytes.take READFILE_BLOCK_SIZE = bytes :=
        List.take_of_length_le (by omega)
      rw [htakeall]
      refine ⟨writeAt data1 offset bytes, rfl, ?_⟩
      rw [writeAt_take data1 bytes offset (by omega), htake1]
    · rw [dif_neg hlt]
      have hge : READFILE_BLOCK_SIZE ≤ bytes.length := by
        simp only [List.length_take, not_lt] at hlt
        omega
      have hchunklen :
          (bytes.take READFILE_BLOCK_SIZE).length = READFILE_BLOCK_SIZE := by
        simp only [List.length_take]
        omega
      have hoff1 : offset + READFILE_BLOCK_SIZE ≤ size1 :=
        block_step hdivo hdivs1 hlt1
      have hwlen :
          (writeAt data1 offset (bytes.take READFILE_BLOCK_SIZE)).length
            = size1 := by
        rw [writeAt_length]
        · exact hd1len
        · rw [hchunklen]
          omega
      obtain ⟨d, hd, hdtake⟩ := ih (bytes.length - READFILE_BLOCK_SIZE)
        (by omega) (bytes.drop READFILE_BLOCK_SIZE)
        (writeAt data1 offset (bytes.take READFILE_BLOCK_SIZE))
        (offset + READFILE_BLOCK_SIZE) size1
        (by simp only [List.length_drop]) hBs1 hoff1 hwlen
        (dvd_add hdivo dvd_rfl) hdivs1
      have harith : offset + READFILE_BLOCK_SIZE
          + (bytes.drop READFILE_BLOCK_SIZE).length = offset + bytes.length := by
        simp only [List.length_drop]
        omega
      have h2 : (writeAt data1 offset (bytes.take READFILE_BLOCK_SIZE)).take
          (offset + READFILE_BLOCK_SIZE) = data1.take offset
            ++ bytes.take READFILE_BLOCK_SIZE := by
        have h3 := writeAt_take data1 (bytes.take READFILE_BLOCK_SIZE) offset
          (by omega)
        rw [hchunklen] at h3
        exact h3
      refine ⟨d, ?_, ?_⟩
      · rw [hd, harith]
      · rw [harith] at hdtake
        rw [hdtake, h2, List.append_assoc, List.take_append_drop, htake1]

/-- C7: `hvsc_read_file` reads 64 KiB chunks into a buffer that doubles when
the offset reaches capacity, treating a short read with `feof` as success:
for every clean stream it returns the byte count with the file's bytes as the
buffer's prefix; a file of exactly one chunk (65536 bytes) returns 65536 with
the buffer holding exactly those bytes; an empty file returns 0 with a
non-null buffer; a stream ending in a real error reports `HVSC_ERR_IO`,
releases the buffer (`dest = none`) and returns -1. -/
theorem read_file_spec :
    (∀ bs : List Nat, ∃ d,
      hvsc_read_file bs false
        = { dest := some d, ret := (bs.length : Int), err := none } ∧
      d.take bs.length = bs) ∧
    (∀ bs : List Nat, bs.length = READFILE_BLOCK_SIZE → ∃ d,
      hvsc_read_file bs false
        = { dest := some d, ret := (READFILE_BLOCK_SIZE : Int),
            err := none } ∧
      d.take READFILE_BLOCK_SIZE = bs) ∧
    (∃ d, hvsc_read_file [] false
        = { dest := some d, ret := 0, err := none } ∧ d ≠ []) ∧
    (∀ bs : List Nat, hvsc_read_file bs true
        = { dest := none, ret := -1, err := some hvscErrIoCode }) := by
  have hgen : ∀ bs : List Nat, ∃ d,
      hvsc_read_file bs false
        = { dest := some d, ret := (bs.length : Int), err := none } ∧
      d.take bs.length = bs := by
    intro bs
    obtain ⟨d, hd, hdtake⟩ := readLoop_success bs.length bs
      (uninitBytes READFILE_BLOCK_SIZE) 0 READFILE_BLOCK_SIZE rfl
      (le_refl _) (Nat.zero_le _) (by simp [uninitBytes])
      (dvd_zero _) dvd_rfl
    refine ⟨d, ?_, ?_⟩
    · simpa [hvsc_read_file] using hd
    · simpa using hdtake
  refine ⟨hgen, ?_, ?_, ?_⟩
  · intro bs hl
    obtain ⟨d, h1, h2⟩ := hgen bs
    rw [hl] at h1 h2
    exact ⟨d, h1, h2⟩
  · refine ⟨writeAt (uninitBytes READFILE_BLOCK_SIZE) 0 [], ?_, ?_⟩
    · simp only [hvsc_read_file]
      rw [readLoop]
      rw [if_neg (by norm_num [READFILE_BLOCK_SIZE])]
      rw [dif_pos (by norm_num [READFILE_BLOCK_SIZE])]
      rfl
    · intro hnil
      have hlen := congrArg List.length hnil
      simp only [writeAt, List.take_zero, List.nil_append, List.length_nil,
        Nat.add_zero, List.drop_zero, uninitBytes, List.length_replicate] at hlen
      norm_num [READFILE_BLOCK_SIZE] at hlen
  · intro bs
    have h := readLoop_io_error bs.length bs
      (uninitBytes READFILE_BLOCK_SIZE) 0 READFILE_BLOCK_SIZE (le_refl _)
    simpa [hvsc_read_file] using h

/-- Witness for C7's theorem at a concrete one-chunk (65536-byte) file. -/
theorem read_file_spec_witness :
    ∃ d, hvsc_read_file (List.replicate READFILE_BLOCK_SIZE 3) false
        = { dest := some d, ret := (READFILE_BLOCK_SIZE : Int),
            err := none } ∧
      d.take READFILE_BLOCK_SIZE = List.replicate READFILE_BLOCK_SIZE 3 := by
  exact read_file_spec.2.1 (List.replicate READFILE_BLOCK_SIZE 3) (by simp)
